import Mathlib

/-!
Verification of the streaming_proto C++ code generator
(`src/tools/streaming_proto/cpp/main.cpp`).

Strings are embedded as `List Char` (`Str`); the line-oriented output of the
emitters is embedded as `List Str`, one element per `endl`-terminated line of
the C++ `stringstream`.  Helpers living in `stream_proto_utils.cpp`,
`string_utils.cpp` and `Errors.cpp` are not part of `src/`; those definitions
are modelled from the spec and carry a doc comment saying so.
-/

abbrev Str := List Char

/-- Character class of protobuf identifiers (letters, digits, underscore),
used as the sanity hypothesis on schema names. -/
def identChar (c : Char) : Bool :=
  ('A' ≤ c && c ≤ 'Z') || ('a' ≤ c && c ≤ 'z') || ('0' ≤ c && c ≤ '9') || c = '_'

/-- A schema name is valid when nonempty and made of identifier characters. -/
def validName (s : Str) : Bool :=
  !s.isEmpty && s.all identChar

/-! ## Data model: the protobuf descriptor tree (read-only input). -/

/-- Field labels of `FieldDescriptorProto` (descriptor.proto). -/
inductive Label where
  | LABEL_OPTIONAL
  | LABEL_REQUIRED
  | LABEL_REPEATED
deriving DecidableEq, Repr

/-- The fixed catalogue of declared wire types of `FieldDescriptorProto`
(descriptor.proto). -/
inductive FieldType where
  | TYPE_DOUBLE
  | TYPE_FLOAT
  | TYPE_INT64
  | TYPE_UINT64
  | TYPE_INT32
  | TYPE_FIXED64
  | TYPE_FIXED32
  | TYPE_BOOL
  | TYPE_STRING
  | TYPE_GROUP
  | TYPE_MESSAGE
  | TYPE_BYTES
  | TYPE_UINT32
  | TYPE_ENUM
  | TYPE_SFIXED32
  | TYPE_SFIXED64
  | TYPE_SINT32
  | TYPE_SINT64
deriving DecidableEq, Repr

/-- The slice of `FieldOptions` the generator reads. -/
structure FieldOptions where
  packed : Bool
deriving DecidableEq, Repr

/-- A field descriptor: name, field number, label, declared wire type,
type name (for message/enum/group typed fields) and options. -/
structure FieldDescriptorProto where
  name : Str
  number : Nat
  label : Label
  type : FieldType
  type_name : Str
  options : FieldOptions
deriving DecidableEq, Repr

/-- An enum value descriptor: name and (possibly negative) numeric value. -/
structure EnumValueDescriptorProto where
  name : Str
  number : Int
deriving DecidableEq, Repr

/-- An enum descriptor: name and declared values in declaration order. -/
structure EnumDescriptorProto where
  name : Str
  value : List EnumValueDescriptorProto
deriving DecidableEq, Repr

/-- A message descriptor: name, fields, nested messages (recursive) and
nested enums, all in declaration order. -/
inductive DescriptorProto where
  | mk (name : Str) (field : List FieldDescriptorProto)
      (nested_type : List DescriptorProto) (enum_type : List EnumDescriptorProto)

def DescriptorProto.name : DescriptorProto → Str
  | .mk n _ _ _ => n

def DescriptorProto.field : DescriptorProto → List FieldDescriptorProto
  | .mk _ f _ _ => f

def DescriptorProto.nested_type : DescriptorProto → List DescriptorProto
  | .mk _ _ n _ => n

def DescriptorProto.enum_type : DescriptorProto → List EnumDescriptorProto
  | .mk _ _ _ e => e

/-- A file descriptor: path-like name, dotted package, top-level enums and
top-level messages. -/
structure FileDescriptorProto where
  name : Str
  package : Str
  enum_type : List EnumDescriptorProto
  message_type : List DescriptorProto

/-! ## String utilities (string_utils.cpp is not under src/; modelled from the
spec, section 4.2). -/

/-- Uppercases a lowercase ASCII letter, leaves everything else unchanged. -/
def upperChar (c : Char) : Char :=
  if 'a' ≤ c && c ≤ 'z' then Char.ofNat (c.toNat - 32) else c

/-- Modelled from the spec: the worker behind `make_constant_name`
(string_utils.cpp, not under src/).  Walks the characters; a lowercase letter
is uppercased and arms an underscore for the next uppercase letter (camelCase
word boundary); an explicit underscore disarms it; every other character is
passed through. -/
def make_constant_name_go : Str → Bool → Str
  | [], _ => []
  | c :: cs, armed =>
    if 'A' ≤ c && c ≤ 'Z' then
      (if armed then ['_', c] else [c]) ++ make_constant_name_go cs false
    else if 'a' ≤ c && c ≤ 'z' then
      upperChar c :: make_constant_name_go cs true
    else if c = '_' then
      c :: make_constant_name_go cs false
    else
      c :: make_constant_name_go cs armed

/-- Modelled from the spec: `make_constant_name` (string_utils.cpp, not under
src/) maps a schema identifier, possibly mixed-case, to the output dialect's
convention of uppercase words joined by underscores. -/
def make_constant_name (s : Str) : Str :=
  make_constant_name_go s false

/-- Does `l` start with `pat`? -/
def hasLead : Str → Str → Bool
  | [], _ => true
  | _ :: _, [] => false
  | p :: ps, c :: cs => p == c && hasLead ps cs

/-- Does `l` end with `pat`? -/
def hasTail (pat l : Str) : Bool :=
  hasLead pat.reverse l.reverse

/-- Modelled from the spec: `stripPrefix` (string_utils.cpp, not under src/):
if the name begins exactly with the given leading string, return the
remainder, otherwise return the name unchanged. -/
def stripLeading (s pre : Str) : Str :=
  if hasLead pre s then s.drop pre.length else s

/-- Modelled from the spec: `replace_string` (string_utils.cpp, not under
src/): replace every occurrence of one character by another. -/
def replace_string (s : Str) (a b : Char) : Str :=
  s.map (fun c => if c = a then b else c)

/-- Worker for `split`: accumulates the current segment (reversed). -/
def splitAux (d : Char) : Str → Str → List Str
  | [], cur => [cur.reverse]
  | c :: cs, cur =>
    if c = d then cur.reverse :: splitAux d cs [] else splitAux d cs (c :: cur)

/-- Modelled from the spec: `split` (string_utils.cpp, not under src/): cuts a
string at every occurrence of the delimiter; an empty string yields no
segments (the package-less file opens no namespace scopes). -/
def split (s : Str) (d : Char) : List Str :=
  if s.isEmpty then [] else splitAux d s []

/-- Substring test: does `s` contain `pat` as a contiguous substring?
Mirrors `std::string::find(pat) != npos`. -/
def containsSub (pat : Str) : Str → Bool
  | [] => pat.isEmpty
  | c :: rest => hasLead pat (c :: rest) || containsSub pat rest

/-! ## Numeric rendering (iostream semantics). -/

/-- Decimal rendering of a natural number, as `operator<<` in the default
`dec` base prints it. -/
def natToStr (n : Nat) : Str :=
  (toString n).toList

/-- Decimal rendering of an integer (enum values may be negative). -/
def intToStr (i : Int) : Str :=
  (toString i).toList

/-- Minimal lowercase hexadecimal digits of `n`, no leading zeros, as the
`hex` base of iostream prints it (`Nat.toDigits 16` uses the lowercase digit
characters and renders `0` as "0"). -/
def hexChars (n : Nat) : Str :=
  Nat.toDigits 16 n

/-- Right-adjusting pad of iostream: fill characters in front until the
string reaches the width. -/
def padTo (w : Nat) (fl : Char) (s : Str) : Str :=
  List.replicate (w - s.length) fl ++ s

/-- The exact text `setfill('0') << setw(16) << hex` produces for a value of
`uint64_t`: the minimal lowercase hex digits padded on the left with zeros to
width 16. -/
def hex16 (n : Nat) : Str :=
  padTo 16 '0' (hexChars n)

/-! ## The identifier encoder (stream_proto_utils.cpp is not under src/;
modelled from the spec, section 4.1). -/

/-- The catalogue code of a declared wire type, the field's `type()` value
from descriptor.proto (1 to 18). -/
def field_type_code : FieldType → Nat
  | .TYPE_DOUBLE => 1
  | .TYPE_FLOAT => 2
  | .TYPE_INT64 => 3
  | .TYPE_UINT64 => 4
  | .TYPE_INT32 => 5
  | .TYPE_FIXED64 => 6
  | .TYPE_FIXED32 => 7
  | .TYPE_BOOL => 8
  | .TYPE_STRING => 9
  | .TYPE_GROUP => 10
  | .TYPE_MESSAGE => 11
  | .TYPE_BYTES => 12
  | .TYPE_UINT32 => 13
  | .TYPE_ENUM => 14
  | .TYPE_SFIXED32 => 15
  | .TYPE_SFIXED64 => 16
  | .TYPE_SINT32 => 17
  | .TYPE_SINT64 => 18

/-- Modelled from the spec: the repetition/packed code recorded in the field
identifier: packed fields, repeated (unpacked) fields and singular fields get
three distinct codes. -/
def field_count_code (field : FieldDescriptorProto) : Nat :=
  if field.options.packed then 4
  else if field.label = Label.LABEL_REPEATED then 2
  else 1

/-- Modelled from the spec: `get_field_id` (stream_proto_utils.cpp, not under
src/).  Spec section 4.1: the 64-bit value is partitioned into fixed bit
ranges that jointly and losslessly record the field's number, its wire type
and its repeated/packed status.  Bits 0 to 31 hold the field number (the
source casts it to `uint32_t`), bits 32 to 39 the wire-type catalogue code,
bits 40 and up the repetition code. -/
def get_field_id (field : FieldDescriptorProto) : Nat :=
  field.number % 2 ^ 32
    + field_type_code field.type * 2 ^ 32
    + field_count_code field * 2 ^ 40

/-- Modelled from the spec: `get_proto_type` (stream_proto_utils.cpp, not
under src/) renders the declared type's proto keyword for scalar types and
the descriptor's type name for message, enum and group typed fields. -/
def get_proto_type (field : FieldDescriptorProto) : Str :=
  match field.type with
  | .TYPE_DOUBLE => "double".toList
  | .TYPE_FLOAT => "float".toList
  | .TYPE_INT64 => "int64".toList
  | .TYPE_UINT64 => "uint64".toList
  | .TYPE_INT32 => "int32".toList
  | .TYPE_FIXED64 => "fixed64".toList
  | .TYPE_FIXED32 => "fixed32".toList
  | .TYPE_BOOL => "bool".toList
  | .TYPE_STRING => "string".toList
  | .TYPE_GROUP => field.type_name
  | .TYPE_MESSAGE => field.type_name
  | .TYPE_BYTES => "bytes".toList
  | .TYPE_UINT32 => "uint32".toList
  | .TYPE_ENUM => field.type_name
  | .TYPE_SFIXED32 => "sfixed32".toList
  | .TYPE_SFIXED64 => "sfixed64".toList
  | .TYPE_SINT32 => "sint32".toList
  | .TYPE_SINT64 => "sint64".toList

/-! ## The emitters (main.cpp).  Each `endl`-terminated write is one list
element. -/

/-- Modelled from the spec: `INDENT` (stream_proto_utils.h, not under src/),
the four-space indentation unit. -/
def INDENT : Str := "    ".toList

/-- `const bool GENERATE_MAPPING = true;` of main.cpp. -/
def GENERATE_MAPPING : Bool := true

/-- One entry of the `_ENUM_<NAME>_NAMES` table: the value's display name
with the enum's constant-form name plus underscore stripped when present
(main.cpp, `write_enum`). -/
def enum_name_entry (enu : EnumDescriptorProto) (indent : Str)
    (v : EnumValueDescriptorProto) : Str :=
  indent ++ INDENT ++ ['"']
    ++ stripLeading v.name (make_constant_name enu.name ++ ['_'])
    ++ "\",".toList

/-- One entry of the `_ENUM_<NAME>_VALUES` table: the generated constant name
of the value (main.cpp, `write_enum`). -/
def enum_value_entry (indent : Str) (v : EnumValueDescriptorProto) : Str :=
  indent ++ INDENT ++ make_constant_name v.name ++ [',']

/-- `write_enum` of main.cpp: the enum comment, one `const int` per declared
value, and (mapping generation being hardwired on) the count constant, the
display-name table and the values table. -/
def write_enum (enu : EnumDescriptorProto) (indent : Str) : List Str :=
  [indent ++ "// enum ".toList ++ enu.name]
  ++ enu.value.map (fun v =>
      indent ++ "const int ".toList ++ make_constant_name v.name
        ++ " = ".toList ++ intToStr v.number ++ [';'])
  ++ (if GENERATE_MAPPING then
        [indent ++ "static const int _ENUM_".toList
            ++ make_constant_name enu.name ++ "_COUNT = ".toList
            ++ natToStr enu.value.length ++ [';'],
         indent ++ "static const char* _ENUM_".toList
            ++ make_constant_name enu.name ++ "_NAMES[".toList
            ++ natToStr enu.value.length ++ "] = \x7b".toList]
        ++ enu.value.map (enum_name_entry enu indent)
        ++ [indent ++ "\x7d;".toList,
            indent ++ "static const int _ENUM_".toList
              ++ make_constant_name enu.name ++ "_VALUES[".toList
              ++ natToStr enu.value.length ++ "] = \x7b".toList]
        ++ enu.value.map (enum_value_entry indent)
        ++ [indent ++ "\x7d;".toList]
      else [])
  ++ [[]]

/-- The descriptive comment line of `write_field` (main.cpp): label comment,
proto type, name, number, and the packed annotation exactly when the packed
option is set. -/
def field_comment_line (field : FieldDescriptorProto) (indent : Str) : Str :=
  indent ++ "// ".toList
    ++ (if field.label = Label.LABEL_OPTIONAL then "optional ".toList else [])
    ++ (if field.label = Label.LABEL_REPEATED then "repeated ".toList else [])
    ++ get_proto_type field ++ [' '] ++ field.name ++ " = ".toList
    ++ natToStr field.number
    ++ (if field.options.packed then " [packed=true]".toList else [])
    ++ [';']

/-- The constant line of `write_field` (main.cpp): the `uint64_t` constant,
its value written as `0x`, sixteen zero-padded lowercase hex digits and the
literal suffix `LL`. -/
def field_const_line (field : FieldDescriptorProto) (indent : Str) : Str :=
  indent ++ "const uint64_t ".toList ++ make_constant_name field.name
    ++ " = 0x".toList ++ hex16 (get_field_id field) ++ "LL;".toList

/-- `write_field` of main.cpp: comment line, constant line, blank line. -/
def write_field (field : FieldDescriptorProto) (indent : Str) : List Str :=
  [field_comment_line field indent, field_const_line field indent, []]

/-- One entry of the `_FIELD_NAMES` table: the raw field name, quoted
(main.cpp, `write_message`). -/
def field_name_entry (indented : Str) (f : FieldDescriptorProto) : Str :=
  indented ++ INDENT ++ ['"'] ++ f.name ++ "\",".toList

/-- One entry of the `_FIELD_IDS` table: the generated constant name of the
field (main.cpp, `write_message`). -/
def field_id_entry (indented : Str) (f : FieldDescriptorProto) : Str :=
  indented ++ INDENT ++ make_constant_name f.name ++ [',']

/-- The reflection block of `write_message` (main.cpp): field count constant,
field-name table, field-ID table, and the trailing blank line. -/
def field_mapping_block (indented : Str)
    (flds : List FieldDescriptorProto) : List Str :=
  [indented ++ "static const int _FIELD_COUNT = ".toList
      ++ natToStr flds.length ++ [';'],
   indented ++ "static const char* _FIELD_NAMES[".toList
      ++ natToStr flds.length ++ "] = \x7b".toList]
  ++ flds.map (field_name_entry indented)
  ++ [indented ++ "\x7d;".toList,
      indented ++ "static const uint64_t _FIELD_IDS[".toList
        ++ natToStr flds.length ++ "] = \x7b".toList]
  ++ flds.map (field_id_entry indented)
  ++ [indented ++ "\x7d;".toList, []]

/-- The `for` loop of main.cpp over nested enums, in declaration order. -/
def write_enum_list (enums : List EnumDescriptorProto) (indent : Str) :
    List Str :=
  (enums.map (fun e => write_enum e indent)).flatten

/-- The `for` loop of main.cpp over fields, in declaration order. -/
def write_field_list (flds : List FieldDescriptorProto) (indent : Str) :
    List Str :=
  (flds.map (fun f => write_field f indent)).flatten

mutual

/-- `write_message` of main.cpp: message comment, namespace open, nested
enums, nested messages (recursive), fields, the reflection block (mapping
generation being hardwired on), namespace close, blank line. -/
def write_message : DescriptorProto → Str → List Str
  | DescriptorProto.mk nm flds nested enums, indent =>
    [indent ++ "// message ".toList ++ nm,
     indent ++ "namespace ".toList ++ nm ++ " \x7b".toList]
    ++ write_enum_list enums (indent ++ INDENT)
    ++ write_message_list nested (indent ++ INDENT)
    ++ write_field_list flds (indent ++ INDENT)
    ++ (if GENERATE_MAPPING then field_mapping_block (indent ++ INDENT) flds
        else [])
    ++ [indent ++ "\x7d //".toList ++ nm, []]

/-- The `for` loop of main.cpp over nested messages, in declaration order. -/
def write_message_list : List DescriptorProto → Str → List Str
  | [], _ => []
  | m :: ms, indent => write_message m indent ++ write_message_list ms indent

end

/-! ## File emitter and driver (main.cpp). -/

/-- `make_filename` of main.cpp: append the fixed ".h" suffix. -/
def make_filename (file_descriptor : FileDescriptorProto) : Str :=
  file_descriptor.name ++ ".h".toList

/-- One produced output document of the response. -/
structure ResponseFile where
  name : Str
  content : List Str
deriving DecidableEq

/-- The slice of `CodeGeneratorResponse` the generator writes:
`supported_features` (0 until set to `FEATURE_PROTO3_OPTIONAL = 1`) and the
list of produced documents. -/
structure CodeGeneratorResponse where
  supported_features : Nat
  file : List ResponseFile
deriving DecidableEq

/-- The slice of `CodeGeneratorRequest` the generator reads: the files to
generate, the free-form parameter string, and the proto files. -/
structure CodeGeneratorRequest where
  file_to_generate : List Str
  parameter : Str
  proto_file : List FileDescriptorProto

/-- The feature token looked up in the request parameter string. -/
def PROTO3_OPTIONAL_TOKEN : Str :=
  "experimental_allow_proto3_optional".toList

/-- Modelled from the spec: `should_generate_for_file`
(stream_proto_utils.cpp, not under src/), the external selection predicate
consulted once per input file; modelled as membership of the file name in
the request's list of files to generate. -/
def should_generate_for_file (request : CodeGeneratorRequest) (file : Str) :
    Bool :=
  request.file_to_generate.any (fun s => s == file)

/-- The body text of the generated header (main.cpp, `write_header_file`):
banner, include guard, one namespace per package segment, top-level enums,
top-level messages, closing namespaces in reverse order, guard close. -/
def header_text (file_descriptor : FileDescriptorProto) : List Str :=
  let header := make_constant_name
    (replace_string ("ANDROID_".toList
        ++ replace_string file_descriptor.name '/' '_') '.' '_'
      ++ "_stream_h".toList)
  let namespaces := split file_descriptor.package '.'
  ["// Generated by protoc-gen-cppstream. DO NOT MODIFY.".toList,
   "// source: ".toList ++ file_descriptor.name, [],
   "#ifndef ".toList ++ header,
   "#define ".toList ++ header, []]
  ++ namespaces.map (fun ns => "namespace ".toList ++ ns ++ " \x7b".toList)
  ++ [[]]
  ++ write_enum_list file_descriptor.enum_type []
  ++ write_message_list file_descriptor.message_type []
  ++ namespaces.reverse.map (fun ns => "\x7d // ".toList ++ ns)
  ++ [[], "#endif // ".toList ++ header]

/-- `write_header_file` of main.cpp: renders the document, advertises the
proto3-optional capability when the request parameter contains the feature
token, and appends the document to the response. -/
def write_header_file (request_parameter : Str)
    (response : CodeGeneratorResponse)
    (file_descriptor : FileDescriptorProto) : CodeGeneratorResponse :=
  let response :=
    if containsSub PROTO3_OPTIONAL_TOKEN request_parameter then
      { response with supported_features := 1 }
    else response
  { response with
      file := response.file
        ++ [⟨make_filename file_descriptor, header_text file_descriptor⟩] }

/-- The generation loop of `main` (main.cpp): for each proto file, when the
selection predicate accepts it, run the file emitter on the accumulated
response. -/
def build_files (request : CodeGeneratorRequest) :
    List FileDescriptorProto → CodeGeneratorResponse → CodeGeneratorResponse
  | [], response => response
  | fd :: fds, response =>
    build_files request fds
      (if should_generate_for_file request fd.name then
        write_header_file request.parameter response fd
      else response)

/-- The observable outcome of one run of `main`: process exit code, the
response written to standard output (none when suppressed), and the error
messages printed to the diagnostic stream. -/
structure RunOutcome where
  exitCode : Nat
  written : Option CodeGeneratorResponse
  printed : List Str
deriving DecidableEq

/-- `main` of main.cpp.  The `ERRORS` accumulator lives in Errors.cpp, which
is not under src/; it is modelled from the spec as the list of error messages
recorded during the run (the emitters in src/ record none, so the list is
whatever the external collaborators put there).  After the loop: when the
log has errors, print them and exit 1 writing nothing; otherwise write the
response and exit 0. -/
def main_run (request : CodeGeneratorRequest) (errors : List Str) :
    RunOutcome :=
  let response := build_files request request.proto_file ⟨0, []⟩
  if errors.isEmpty then ⟨0, some response, []⟩
  else ⟨1, none, errors⟩

/-! ## Scope markers: the structural view of the rendered document used to
compare its nesting with the descriptor tree (spec section 8, round-trip
scoping). -/

/-- A scope marker of the rendered document: a named scope opening or a named
scope closing. -/
inductive ScopeTok where
  | enter (name : Str)
  | leave (name : Str)
deriving DecidableEq

/-- Recognizes the scope markers `write_message` renders: an opening line is
indentation, `namespace `, the name and ` {`; a closing line is indentation,
`} //` and the name.  Any other line is no marker. -/
def lineTok (l : Str) : Option ScopeTok :=
  let t := l.dropWhile (fun c => c == ' ')
  if hasLead "namespace ".toList t && hasTail " \x7b".toList t then
    some (ScopeTok.enter
      (((t.drop 10).take ((t.drop 10).length - 2))))
  else if hasLead "\x7d //".toList t then
    some (ScopeTok.leave (t.drop 4))
  else none

/-- The scope trace of a rendered document: its marker lines in order. -/
def scopeTrace (lines : List Str) : List ScopeTok :=
  lines.filterMap lineTok

mutual

/-- The scope trace the descriptor tree itself prescribes: enter the message,
the traces of the nested messages in declaration order, leave the message. -/
def msgScopeTrace : DescriptorProto → List ScopeTok
  | DescriptorProto.mk nm _ nested _ =>
    ScopeTok.enter nm :: msgScopeTraceList nested ++ [ScopeTok.leave nm]

/-- The concatenated scope traces of a list of messages. -/
def msgScopeTraceList : List DescriptorProto → List ScopeTok
  | [] => []
  | m :: ms => msgScopeTrace m ++ msgScopeTraceList ms

end

/-- Validity of a field descriptor's name for the scope analysis. -/
def validField (f : FieldDescriptorProto) : Bool :=
  validName f.name

/-- Validity of an enum descriptor: its name and all value names. -/
def validEnum (e : EnumDescriptorProto) : Bool :=
  validName e.name && e.value.all (fun v => validName v.name)

mutual

/-- Validity of a message descriptor tree: every schema name in it is a
protobuf identifier (guaranteed by the upstream schema compiler). -/
def validMsg : DescriptorProto → Bool
  | DescriptorProto.mk nm flds nested enums =>
    validName nm && flds.all validField && validMsgList nested
      && enums.all validEnum

/-- Validity of a list of message descriptors. -/
def validMsgList : List DescriptorProto → Bool
  | [] => true
  | m :: ms => validMsg m && validMsgList ms

end

/-- All characters of the string are spaces (the shape of every indentation
passed to the emitters). -/
def allSpaces (s : Str) : Bool :=
  s.all (fun c => c == ' ')

/-! ## Stream-state model (iostream semantics) for the formatting-state
claim.  `std::ios::fmtflags` captures the numeric base (among other flags)
but neither the fill character nor the field width; the width is consumed
and reset to zero by the next formatted insertion. -/

/-- The numeric bases the generator touches (`dec` is the stream default,
`hex` is set for the field-ID; `oct` is never used and omitted). -/
inductive NumBase where
  | dec
  | hex
deriving DecidableEq, Repr

/-- The slice of `std::ios::fmtflags` the generator manipulates: the base
field.  The fill character and the width are not part of the flags. -/
structure FmtFlags where
  base : NumBase
deriving DecidableEq, Repr

/-- An output string stream: accumulated text plus formatting state. -/
structure OStream where
  out : Str
  base : NumBase
  width : Nat
  fill : Char
deriving DecidableEq, Repr

/-- `text.flags()`: reads the format flags (the base; not fill, not width). -/
def OStream.flags (s : OStream) : FmtFlags :=
  ⟨s.base⟩

/-- `text.flags(fmt)`: restores the format flags (the base; not fill, not
width). -/
def OStream.setFlags (s : OStream) (f : FmtFlags) : OStream :=
  { s with base := f.base }

/-- `text << setfill(c)`. -/
def OStream.setfill (s : OStream) (c : Char) : OStream :=
  { s with fill := c }

/-- `text << setw(w)`. -/
def OStream.setw (s : OStream) (w : Nat) : OStream :=
  { s with width := w }

/-- `text << hex`. -/
def OStream.setHex (s : OStream) : OStream :=
  { s with base := NumBase.hex }

/-- Rendering of an unsigned integer in the stream's base. -/
def renderNat (b : NumBase) (n : Nat) : Str :=
  match b with
  | .dec => natToStr n
  | .hex => hexChars n

/-- A formatted string insertion: pads to the pending width with the fill
character, then resets the width. -/
def OStream.putStr (s : OStream) (t : Str) : OStream :=
  { s with out := s.out ++ padTo s.width s.fill t, width := 0 }

/-- A formatted integer insertion: renders in the current base, pads to the
pending width with the fill character, then resets the width. -/
def OStream.putNat (s : OStream) (n : Nat) : OStream :=
  { s with width := 0, out := s.out ++ padTo s.width s.fill (renderNat s.base n) }

/-- A character insertion. -/
def OStream.putChar (s : OStream) (c : Char) : OStream :=
  s.putStr [c]

/-- `text << endl`: a newline (the flush has no observable effect here). -/
def OStream.endl (s : OStream) : OStream :=
  { s with out := s.out ++ ['\n'] }

/-- `write_field` of main.cpp at the stream level, statement by statement:
the comment line; the constant head; `ios::fmtflags fmt(text.flags())`;
`setfill('0') << setw(16) << hex <<` the field ID; `text.flags(fmt)`; the
`LL;` suffix and the blank line. -/
def write_field_stream (text : OStream) (field : FieldDescriptorProto)
    (indent : Str) : OStream :=
  let optional_comment :=
    if field.label = Label.LABEL_OPTIONAL then "optional ".toList else []
  let repeated_comment :=
    if field.label = Label.LABEL_REPEATED then "repeated ".toList else []
  let proto_type := get_proto_type field
  let packed_comment :=
    if field.options.packed then " [packed=true]".toList else []
  let text := (((((((((((text.putStr indent).putStr
      "// ".toList).putStr optional_comment).putStr
      repeated_comment).putStr proto_type).putChar ' ').putStr
      field.name).putStr " = ".toList).putNat field.number).putStr
      packed_comment).putChar ';').endl
  let text := (((text.putStr indent).putStr
      "const uint64_t ".toList).putStr
      (make_constant_name field.name)).putStr " = 0x".toList
  let fmt := text.flags
  let text := (((text.setfill '0').setw 16).setHex).putNat
      (get_field_id field)
  let text := text.setFlags fmt
  ((text.putStr "LL;".toList).endl).endl

/-- Flattens a line-level rendering back to raw stream text: each line
followed by the newline `endl` wrote. -/
def lineJoin (lines : List Str) : Str :=
  (lines.map (fun l => l ++ ['\n'])).flatten

/-- An integer-literal suffix marks unsignedness exactly when it carries a
`u` or `U` (C++ integer-literal grammar). -/
def marksUnsigned (s : Str) : Bool :=
  s.any (fun c => c = 'u' || c = 'U')

/-- An integer-literal suffix marks a 64-bit (long long) literal when it
carries `ll` or `LL`. -/
def marks64 (s : Str) : Bool :=
  containsSub "ll".toList s || containsSub "LL".toList s

/-- The repetition/packed status of a field descriptor as declared: is the
label repeated, and is the packed option set. -/
def repStatus (field : FieldDescriptorProto) : Bool × Bool :=
  (decide (field.label = Label.LABEL_REPEATED), field.options.packed)

/-- A field descriptor is well formed when its packed option is only set on
repeated fields (spec section 3: packed-encoding flag, repeated fields
only). -/
def packedOnlyRepeated (field : FieldDescriptorProto) : Bool :=
  !field.options.packed || decide (field.label = Label.LABEL_REPEATED)

/-- Replaces only the packed option of a field descriptor, leaving name,
number, label, type and type name unchanged. -/
def setPacked (field : FieldDescriptorProto) (b : Bool) :
    FieldDescriptorProto :=
  { field with options := ⟨b⟩ }

/-! ## Concrete inputs for the witnesses and counterexamples. -/

/-- A singular int32 field `sides = 1`. -/
def fldSides : FieldDescriptorProto :=
  ⟨"sides".toList, 1, Label.LABEL_REQUIRED, FieldType.TYPE_INT32, [], ⟨false⟩⟩

/-- An optional int32 field `count = 7`, unpacked. -/
def fldCount : FieldDescriptorProto :=
  ⟨"count".toList, 7, Label.LABEL_OPTIONAL, FieldType.TYPE_INT32, [], ⟨false⟩⟩

/-- Same number, type and status as `fldCount` but another name. -/
def fldTotal : FieldDescriptorProto :=
  ⟨"total".toList, 7, Label.LABEL_OPTIONAL, FieldType.TYPE_INT32, [], ⟨false⟩⟩

/-- Same as `fldCount` except for the declared wire type. -/
def fldCountS : FieldDescriptorProto :=
  ⟨"count".toList, 7, Label.LABEL_OPTIONAL, FieldType.TYPE_SINT32, [], ⟨false⟩⟩

/-- A two-value demo enum. -/
def demoEnum : EnumDescriptorProto :=
  ⟨"Color".toList, [⟨"COLOR_RED".toList, 0⟩, ⟨"GREEN".toList, 1⟩]⟩

/-- A leaf demo message. -/
def demoInner : DescriptorProto :=
  DescriptorProto.mk "Inner".toList [] [] []

/-- A demo message with a nested enum, a nested message and a field. -/
def demoOuter : DescriptorProto :=
  DescriptorProto.mk "Outer".toList [fldSides] [demoInner] [demoEnum]

/-- A demo proto file with no package, no enums and no messages. -/
def demoFile : FileDescriptorProto :=
  ⟨"a.proto".toList, [], [], []⟩

/-- A request selecting `demoFile`, with an empty parameter string. -/
def demoRequest : CodeGeneratorRequest :=
  ⟨["a.proto".toList], [], [demoFile]⟩

/-- A request whose parameter carries the proto3-optional token but whose
file list selects nothing (no proto files at all). -/
def tokenOnlyRequest : CodeGeneratorRequest :=
  ⟨[], PROTO3_OPTIONAL_TOKEN, []⟩

/-- A request carrying the token and selecting `demoFile`. -/
def tokenRequest : CodeGeneratorRequest :=
  ⟨["a.proto".toList], PROTO3_OPTIONAL_TOKEN, [demoFile]⟩

/-- A request containing `demoFile` but selecting only another name. -/
def skipAllRequest : CodeGeneratorRequest :=
  ⟨["x.proto".toList], [], [demoFile]⟩

/-- A fresh stream in the default state: empty text, decimal base, zero
width, blank fill. -/
def freshStream : OStream :=
  ⟨[], NumBase.dec, 0, ' '⟩

/-- The characters `make_constant_name` emits on identifier input: uppercase
letters, digits and underscores. -/
def goodChar (c : Char) : Bool :=
  ('A' ≤ c && c ≤ 'Z') || ('0' ≤ c && c ≤ '9') || c == '_'

/-- A lowercase hexadecimal digit character, as iostream `hex` emits. -/
def isHexDigitChar (c : Char) : Bool :=
  ('0' ≤ c && c ≤ '9') || ('a' ≤ c && c ≤ 'f')

/-- A line whose first character is none of space, `n`, `}` can never be a
scope marker; this head test drives the marker analysis. -/
def headGood : Str → Bool
  | [] => false
  | c :: _ => !(c == ' ') && !(c == 'n') && !(c == '\x7d')

/-! ## Theorems.  Helper lemmas first, then one theorem per claim (with
witnesses and counterexamples where required). -/

theorem field_type_code_bounds (t : FieldType) :
    1 ≤ field_type_code t ∧ field_type_code t ≤ 18 := by
  cases t <;> simp [field_type_code]

theorem field_type_code_inj (a b : FieldType)
    (h : field_type_code a = field_type_code b) : a = b := by
  cases a <;> cases b <;> first | rfl | (exact absurd h (by decide))

theorem field_count_code_bounds (f : FieldDescriptorProto) :
    1 ≤ field_count_code f ∧ field_count_code f ≤ 4 := by
  unfold field_count_code
  split <;> [skip; split] <;> omega

theorem field_count_code_of_repStatus (f1 f2 : FieldDescriptorProto)
    (h : repStatus f1 = repStatus f2) :
    field_count_code f1 = field_count_code f2 := by
  simp only [repStatus, Prod.mk.injEq, decide_eq_decide] at h
  unfold field_count_code
  rw [h.2, if_congr h.1 rfl rfl]

theorem repStatus_of_field_count_code (f1 f2 : FieldDescriptorProto)
    (h1 : packedOnlyRepeated f1 = true) (h2 : packedOnlyRepeated f2 = true)
    (h : field_count_code f1 = field_count_code f2) :
    repStatus f1 = repStatus f2 := by
  unfold packedOnlyRepeated at h1 h2
  unfold field_count_code at h
  unfold repStatus
  by_cases hp1 : f1.options.packed <;> by_cases hp2 : f2.options.packed <;>
    by_cases hr1 : f1.label = Label.LABEL_REPEATED <;>
    by_cases hr2 : f2.label = Label.LABEL_REPEATED <;>
    simp_all

/-- Claim C1: the identifier encoder reads exactly the triple (field number,
declared wire type, repetition/packed status).  For well-formed field
descriptors (packed only on repeated fields, number in the 32-bit range),
two descriptors agree on the triple if and only if `get_field_id` returns
the same 64-bit value — so equal triples give equal identifiers regardless
of any other attribute such as the name, and differing triples give
different identifiers. -/
theorem c1_field_id_triple (f1 f2 : FieldDescriptorProto)
    (h1 : packedOnlyRepeated f1 = true) (h2 : packedOnlyRepeated f2 = true)
    (hn1 : f1.number < 2 ^ 32) (hn2 : f2.number < 2 ^ 32) :
    (f1.number = f2.number ∧ f1.type = f2.type ∧ repStatus f1 = repStatus f2)
      ↔ get_field_id f1 = get_field_id f2 := by
  constructor
  · rintro ⟨hn, ht, hs⟩
    unfold get_field_id
    rw [hn, ht, field_count_code_of_repStatus f1 f2 hs]
  · intro h
    unfold get_field_id at h
    rw [Nat.mod_eq_of_lt hn1, Nat.mod_eq_of_lt hn2] at h
    have hb1 := field_type_code_bounds f1.type
    have hb2 := field_type_code_bounds f2.type
    have hc1 := field_count_code_bounds f1
    have hc2 := field_count_code_bounds f2
    have hpow32 : (2 : Nat) ^ 32 = 4294967296 := by norm_num
    have hpow40 : (2 : Nat) ^ 40 = 1099511627776 := by norm_num
    rw [hpow32] at h hn1 hn2
    rw [hpow40] at h
    have hnum : f1.number = f2.number := by omega
    have htc : field_type_code f1.type = field_type_code f2.type := by omega
    have hcc : field_count_code f1 = field_count_code f2 := by omega
    exact ⟨hnum, field_type_code_inj _ _ htc,
      repStatus_of_field_count_code f1 f2 h1 h2 hcc⟩

/-- Witness for C1: `fldCount` and `fldTotal` share the triple (7, int32,
singular unpacked) and differ only in name, so their identifiers coincide;
`fldCountS` differs from `fldCount` only in the wire type, so its identifier
differs. -/
theorem c1_field_id_witness :
    get_field_id fldCount = get_field_id fldTotal ∧
    get_field_id fldCount ≠ get_field_id fldCountS := by
  constructor
  · exact (c1_field_id_triple fldCount fldTotal (by decide) (by decide)
      (by norm_num [fldCount]) (by norm_num [fldTotal])).mp (by decide)
  · intro h
    have h2 := (c1_field_id_triple fldCount fldCountS (by decide) (by decide)
      (by norm_num [fldCount]) (by norm_num [fldCountS])).mpr h
    exact absurd h2.2.1 (by decide)
theorem hasLead_append_self (p r : Str) : hasLead p (p ++ r) = true := by
  induction p with
  | nil => rfl
  | cons c cs ih => simp [hasLead, ih]

theorem dropWhile_spaces (ind l : Str) (h : allSpaces ind = true) :
    (ind ++ l).dropWhile (fun c => c == ' ')
      = l.dropWhile (fun c => c == ' ') := by
  induction ind with
  | nil => rfl
  | cons c cs ih =>
    simp only [allSpaces, List.all_cons, Bool.and_eq_true] at h
    simp only [List.cons_append, List.dropWhile, h.1]
    exact ih h.2

theorem lineTok_append_spaces (ind l : Str) (h : allSpaces ind = true) :
    lineTok (ind ++ l) = lineTok l := by
  unfold lineTok
  rw [dropWhile_spaces ind l h]

theorem lineTok_enter (nm : Str) :
    lineTok ("namespace ".toList ++ (nm ++ " \x7b".toList))
      = some (ScopeTok.enter nm) := by
  unfold lineTok
  have hdw : ("namespace ".toList ++ (nm ++ " \x7b".toList)).dropWhile
      (fun c => c == ' ') = "namespace ".toList ++ (nm ++ " \x7b".toList) := rfl
  rw [hdw]
  have h1 : hasLead "namespace ".toList
      ("namespace ".toList ++ (nm ++ " \x7b".toList)) = true :=
    hasLead_append_self _ _
  have h2 : hasTail " \x7b".toList
      ("namespace ".toList ++ (nm ++ " \x7b".toList)) = true := by
    unfold hasTail
    rw [List.reverse_append, List.reverse_append]
    exact hasLead_append_self _ _
  simp only [h1, h2, Bool.and_self, if_true]
  have hdrop : (("namespace ".toList ++ (nm ++ " \x7b".toList)).drop 10)
      = nm ++ " \x7b".toList := by
    rw [show (10 : Nat) = ("namespace ".toList).length from rfl]
    exact List.drop_left _ _
  rw [hdrop]
  have hlen : (nm ++ " \x7b".toList).length - 2 = nm.length := by
    rw [List.length_append]
    rfl
  rw [hlen]
  rw [List.take_left]

theorem lineTok_leave (nm : Str) :
    lineTok ("\x7d //".toList ++ nm) = some (ScopeTok.leave nm) := rfl

theorem lineTok_none_head (c : Char) (r : Str) (h1 : c ≠ ' ') (h2 : c ≠ 'n')
    (h3 : c ≠ '\x7d') : lineTok (c :: r) = none := by
  have e1 : (c == ' ') = false := by simp [h1]
  have e2 : ('n' == c) = false := by simp [Ne.symm h2]
  have e3 : ('\x7d' == c) = false := by simp [Ne.symm h3]
  have hdw : (c :: r).dropWhile (fun x => x == ' ') = c :: r := by
    simp [List.dropWhile, e1]
  have hn : hasLead "namespace ".toList (c :: r) = false := by
    rw [show "namespace ".toList = 'n' :: "amespace ".toList from rfl]
    simp [hasLead, e2]
  have hc : hasLead "\x7d //".toList (c :: r) = false := by
    rw [show "\x7d //".toList = '\x7d' :: " //".toList from rfl]
    simp [hasLead, e3]
  unfold lineTok
  rw [hdw]
  simp only [hn, hc, Bool.false_and]
  simp

theorem lineTok_ind_head (ind : Str) (c : Char) (r : Str)
    (hs : allSpaces ind = true) (h1 : c ≠ ' ') (h2 : c ≠ 'n')
    (h3 : c ≠ '\x7d') : lineTok (ind ++ c :: r) = none := by
  rw [lineTok_append_spaces ind _ hs]
  exact lineTok_none_head c r h1 h2 h3

theorem lineTok_closebrace (ind : Str) (hs : allSpaces ind = true) :
    lineTok (ind ++ "\x7d;".toList) = none := by
  rw [lineTok_append_spaces ind _ hs]
  rfl

theorem allSpaces_INDENT : allSpaces INDENT = true := rfl

theorem allSpaces_append (a b : Str) (ha : allSpaces a = true)
    (hb : allSpaces b = true) : allSpaces (a ++ b) = true := by
  simp only [allSpaces, List.all_append, Bool.and_eq_true]
  exact ⟨ha, hb⟩

theorem char_ofNat_toNat (n : Nat) (h1 : 65 ≤ n) (h2 : n ≤ 90) :
    (Char.ofNat n).toNat = n := by
  have hv : n.isValidChar := Or.inl (by omega)
  simp [Char.ofNat, hv, Char.ofNatAux, Char.toNat, UInt32.toNat,
    BitVec.toNat_ofNatLt]

theorem upperChar_toNat (c : Char) (h1 : 'a' ≤ c) (h2 : c ≤ 'z') :
    (upperChar c).toNat = c.toNat - 32 := by
  have hlo : 97 ≤ c.toNat := by
    rw [Char.le_def, UInt32.le_def] at h1; exact h1
  have hhi : c.toNat ≤ 122 := by
    rw [Char.le_def, UInt32.le_def] at h2; exact h2
  unfold upperChar
  rw [if_pos (by simp [h1, h2])]
  exact char_ofNat_toNat _ (by omega) (by omega)

theorem goodChar_of_toNat (c : Char) (h1 : 65 ≤ c.toNat) (h2 : c.toNat ≤ 90) :
    goodChar c = true := by
  unfold goodChar
  have ha : 'A' ≤ c := by rw [Char.le_def, UInt32.le_def]; exact h1
  have hb : c ≤ 'Z' := by rw [Char.le_def, UInt32.le_def]; exact h2
  simp [ha, hb]

theorem upperChar_good (c : Char) (h1 : 'a' ≤ c) (h2 : c ≤ 'z') :
    goodChar (upperChar c) = true := by
  have hlo : 97 ≤ c.toNat := by
    rw [Char.le_def, UInt32.le_def] at h1; exact h1
  have hhi : c.toNat ≤ 122 := by
    rw [Char.le_def, UInt32.le_def] at h2; exact h2
  have ht := upperChar_toNat c h1 h2
  exact goodChar_of_toNat _ (by omega) (by omega)

theorem goodChar_spec (c : Char) (h : goodChar c = true) :
    c ≠ ' ' ∧ c ≠ 'n' ∧ c ≠ '\x7d' := by
  refine ⟨?_, ?_, ?_⟩ <;> rintro rfl <;> exact absurd h (by decide)

theorem make_constant_name_go_good (s : Str) (armed : Bool)
    (h : s.all identChar = true) :
    (make_constant_name_go s armed).all goodChar = true := by
  induction s generalizing armed with
  | nil => rfl
  | cons c cs ih =>
    simp only [List.all_cons, Bool.and_eq_true] at h
    obtain ⟨hc, hcs⟩ := h
    unfold make_constant_name_go
    by_cases hU : ('A' ≤ c ∧ c ≤ 'Z')
    · rw [if_pos (by simp [hU.1, hU.2])]
      have hgc : goodChar c = true := by
        unfold goodChar; simp [hU.1, hU.2]
      have hund : goodChar '_' = true := by decide
      cases armed <;>
        simp [List.all_append, List.all_cons, ih false hcs, hgc, hund]
    · rw [if_neg (by simp only [Bool.and_eq_true, decide_eq_true_eq]; exact hU)]
      by_cases hL : ('a' ≤ c ∧ c ≤ 'z')
      · rw [if_pos (by simp [hL.1, hL.2])]
        simp [List.all_cons, ih true hcs, upperChar_good c hL.1 hL.2]
      · rw [if_neg (by simp only [Bool.and_eq_true, decide_eq_true_eq]; exact hL)]
        have hgc : goodChar c = true := by
          unfold identChar at hc
          simp only [Bool.or_eq_true, Bool.and_eq_true, decide_eq_true_eq,
            beq_iff_eq] at hc
          unfold goodChar
          rcases hc with ((h1 | h2) | h3) | h4
          · exact absurd h1 hU
          · exact absurd h2 hL
          · simp [h3.1, h3.2]
          · simp [h4]
        by_cases hUn : c = '_'
        · rw [if_pos hUn]
          simp [List.all_cons, ih false hcs, hgc]
        · rw [if_neg hUn]
          simp [List.all_cons, ih armed hcs, hgc]

theorem make_constant_name_go_ne_nil (c : Char) (cs : Str) (armed : Bool) :
    make_constant_name_go (c :: cs) armed ≠ [] := by
  unfold make_constant_name_go
  split
  · cases armed <;> simp
  · split
    · simp
    · split <;> simp

theorem lineTok_mcn (nm r : Str) (h : validName nm = true) :
    lineTok (make_constant_name nm ++ r) = none := by
  unfold validName at h
  simp only [Bool.and_eq_true, Bool.not_eq_true'] at h
  obtain ⟨hne, hall⟩ := h
  have hne' : nm ≠ [] := by
    intro hnil
    rw [hnil] at hne
    exact absurd hne (by decide)
  obtain ⟨c, cs, rfl⟩ := List.exists_cons_of_ne_nil hne'
  have hgood := make_constant_name_go_good (c :: cs) false hall
  have hnn := make_constant_name_go_ne_nil c cs false
  obtain ⟨d, ds, hd⟩ := List.exists_cons_of_ne_nil hnn
  unfold make_constant_name
  rw [hd, List.cons_append]
  have hgd : goodChar d = true := by
    rw [hd] at hgood
    simp only [List.all_cons, Bool.and_eq_true] at hgood
    exact hgood.1
  obtain ⟨n1, n2, n3⟩ := goodChar_spec d hgd
  exact lineTok_none_head d _ n1 n2 n3

theorem lineTok_ind_lit (ind : Str) (s : String) (r : Str)
    (hs : allSpaces ind = true) (h : headGood s.toList = true) :
    lineTok (ind ++ (s.toList ++ r)) = none := by
  rw [lineTok_append_spaces _ _ hs]
  obtain ⟨c, cs, hcons⟩ : ∃ c cs, s.toList = c :: cs := by
    cases hsl : s.toList with
    | nil => rw [hsl] at h; exact absurd h (by decide)
    | cons c cs => exact ⟨c, cs, rfl⟩
  rw [hcons, List.cons_append]
  rw [hcons] at h
  unfold headGood at h
  simp only [Bool.and_eq_true, Bool.not_eq_true'] at h
  refine lineTok_none_head c _ ?_ ?_ ?_ <;> intro hh <;> rw [hh] at h <;>
    simp at h

theorem lineTok_quote_entry (ind r : Str) (hs : allSpaces ind = true) :
    lineTok (ind ++ (INDENT ++ ('"' :: r))) = none := by
  rw [lineTok_append_spaces _ _ hs, lineTok_append_spaces _ _ allSpaces_INDENT]
  exact lineTok_none_head '"' _ (by decide) (by decide) (by decide)

theorem lineTok_mcn_entry (ind nm r : Str) (hs : allSpaces ind = true)
    (hv : validName nm = true) :
    lineTok (ind ++ (INDENT ++ (make_constant_name nm ++ r))) = none := by
  rw [lineTok_append_spaces _ _ hs, lineTok_append_spaces _ _ allSpaces_INDENT]
  exact lineTok_mcn nm r hv

theorem filterMap_one_none (a : Str) (ha : lineTok a = none) :
    [a].filterMap lineTok = [] := by
  rw [List.filterMap_cons_none ha, List.filterMap_nil]

theorem filterMap_two_none (a b : Str) (ha : lineTok a = none)
    (hb : lineTok b = none) : [a, b].filterMap lineTok = [] := by
  rw [List.filterMap_cons_none ha, List.filterMap_cons_none hb,
    List.filterMap_nil]

theorem filterMap_map_none {α : Type} (g : α → Str) (xs : List α)
    (h : ∀ x ∈ xs, lineTok (g x) = none) :
    (xs.map g).filterMap lineTok = [] := by
  rw [List.filterMap_eq_nil_iff]
  intro l hl
  obtain ⟨x, hx, rfl⟩ := List.mem_map.mp hl
  exact h x hx

theorem write_field_trace (f : FieldDescriptorProto) (ind : Str)
    (hs : allSpaces ind = true) :
    (write_field f ind).filterMap lineTok = [] := by
  have h1 : lineTok (field_comment_line f ind) = none := by
    unfold field_comment_line
    simp only [List.append_assoc]
    exact lineTok_ind_lit ind "// " _ hs (by decide)
  have h2 : lineTok (field_const_line f ind) = none := by
    unfold field_const_line
    simp only [List.append_assoc]
    exact lineTok_ind_lit ind "const uint64_t " _ hs (by decide)
  unfold write_field
  rw [List.filterMap_cons_none h1, List.filterMap_cons_none h2,
    List.filterMap_cons_none rfl, List.filterMap_nil]

theorem write_enum_trace (e : EnumDescriptorProto) (ind : Str)
    (hs : allSpaces ind = true) (hv : validEnum e = true) :
    (write_enum e ind).filterMap lineTok = [] := by
  unfold validEnum at hv
  simp only [Bool.and_eq_true, List.all_eq_true] at hv
  obtain ⟨hname, hvals⟩ := hv
  rw [List.filterMap_eq_nil_iff]
  intro l hl
  unfold write_enum at hl
  simp only [GENERATE_MAPPING, if_true, List.mem_append, List.mem_cons,
    List.mem_map, List.not_mem_nil, or_false, List.mem_singleton] at hl
  rcases hl with ((rfl | ⟨v, hvm, rfl⟩) |
    ((((rfl | rfl) | ⟨v, hvm, rfl⟩) | (rfl | rfl)) | ⟨v, hvm, rfl⟩) | rfl) |
    rfl
  · simp only [List.append_assoc]
    exact lineTok_ind_lit ind "// enum " _ hs (by decide)
  · simp only [List.append_assoc]
    exact lineTok_ind_lit ind "const int " _ hs (by decide)
  · simp only [List.append_assoc]
    exact lineTok_ind_lit ind "static const int _ENUM_" _ hs (by decide)
  · simp only [List.append_assoc]
    exact lineTok_ind_lit ind "static const char* _ENUM_" _ hs (by decide)
  · unfold enum_name_entry
    simp only [List.append_assoc, List.singleton_append]
    exact lineTok_quote_entry ind _ hs
  · exact lineTok_closebrace ind hs
  · simp only [List.append_assoc]
    exact lineTok_ind_lit ind "static const int _ENUM_" _ hs (by decide)
  · unfold enum_value_entry
    simp only [List.append_assoc]
    exact lineTok_mcn_entry ind v.name _ hs (hvals v hvm)
  · exact lineTok_closebrace ind hs
  · rfl

theorem field_mapping_block_trace (ind : Str)
    (flds : List FieldDescriptorProto) (hs : allSpaces ind = true)
    (hv : flds.all validField = true) :
    (field_mapping_block ind flds).filterMap lineTok = [] := by
  simp only [List.all_eq_true] at hv
  rw [List.filterMap_eq_nil_iff]
  intro l hl
  unfold field_mapping_block at hl
  simp only [List.mem_append, List.mem_cons, List.mem_map,
    List.not_mem_nil, or_false, List.mem_singleton] at hl
  rcases hl with ((((rfl | rfl) | ⟨f, hfm, rfl⟩) | (rfl | rfl)) |
    ⟨f, hfm, rfl⟩) | (rfl | rfl)
  · simp only [List.append_assoc]
    exact lineTok_ind_lit ind "static const int _FIELD_COUNT = " _ hs
      (by decide)
  · simp only [List.append_assoc]
    exact lineTok_ind_lit ind "static const char* _FIELD_NAMES[" _ hs
      (by decide)
  · unfold field_name_entry
    simp only [List.append_assoc, List.singleton_append]
    exact lineTok_quote_entry ind _ hs
  · exact lineTok_closebrace ind hs
  · simp only [List.append_assoc]
    exact lineTok_ind_lit ind "static const uint64_t _FIELD_IDS[" _ hs
      (by decide)
  · unfold field_id_entry
    simp only [List.append_assoc]
    exact lineTok_mcn_entry ind f.name _ hs (hv f hfm)
  · exact lineTok_closebrace ind hs
  · rfl

theorem write_field_list_cons (f : FieldDescriptorProto)
    (fs : List FieldDescriptorProto) (ind : Str) :
    write_field_list (f :: fs) ind
      = write_field f ind ++ write_field_list fs ind := rfl

theorem write_field_list_trace (fs : List FieldDescriptorProto) (ind : Str)
    (hs : allSpaces ind = true) :
    (write_field_list fs ind).filterMap lineTok = [] := by
  induction fs with
  | nil => rfl
  | cons f fs ihf =>
    rw [write_field_list_cons, List.filterMap_append,
      write_field_trace f ind hs, ihf]
    rfl

theorem write_enum_list_cons (e : EnumDescriptorProto)
    (es : List EnumDescriptorProto) (ind : Str) :
    write_enum_list (e :: es) ind
      = write_enum e ind ++ write_enum_list es ind := rfl

theorem write_enum_list_trace (es : List EnumDescriptorProto) (ind : Str)
    (hs : allSpaces ind = true) (hv : es.all validEnum = true) :
    (write_enum_list es ind).filterMap lineTok = [] := by
  induction es with
  | nil => rfl
  | cons e es ihe =>
    simp only [List.all_cons, Bool.and_eq_true] at hv
    rw [write_enum_list_cons, List.filterMap_append,
      write_enum_trace e ind hs hv.1, ihe hv.2]
    rfl

theorem write_message_list_cons (m : DescriptorProto)
    (ms : List DescriptorProto) (ind : Str) :
    write_message_list (m :: ms) ind
      = write_message m ind ++ write_message_list ms ind := rfl

theorem msgScopeTraceList_cons (m : DescriptorProto)
    (ms : List DescriptorProto) :
    msgScopeTraceList (m :: ms) = msgScopeTrace m ++ msgScopeTraceList ms := rfl

theorem scope_trace_aux (k : Nat) :
    ∀ (m : DescriptorProto), sizeOf m ≤ k → validMsg m = true →
      ∀ ind, allSpaces ind = true →
        (write_message m ind).filterMap lineTok = msgScopeTrace m := by
  induction k with
  | zero =>
    intro m hm
    obtain ⟨nm, flds, nested, enums⟩ := m
    simp at hm
  | succ k ih =>
    intro m hm hv ind hs
    obtain ⟨nm, flds, nested, enums⟩ := m
    rw [validMsg] at hv
    simp only [Bool.and_eq_true] at hv
    obtain ⟨⟨⟨hnm, hflds⟩, hnested⟩, henums⟩ := hv
    have hind : allSpaces (ind ++ INDENT) = true :=
      allSpaces_append _ _ hs allSpaces_INDENT
    have hsz : ∀ m' ∈ nested, sizeOf m' ≤ k := by
      intro m' hm'
      have h1 := List.sizeOf_lt_of_mem hm'
      simp only [DescriptorProto.mk.sizeOf_spec] at hm
      omega
    have hlist : ∀ ms : List DescriptorProto, (∀ m' ∈ ms, sizeOf m' ≤ k) →
        validMsgList ms = true →
        (write_message_list ms (ind ++ INDENT)).filterMap lineTok
          = msgScopeTraceList ms := by
      intro ms
      induction ms with
      | nil => intro _ _; rfl
      | cons m' ms' ihl =>
        intro hszl hvl
        rw [validMsgList] at hvl
        simp only [Bool.and_eq_true] at hvl
        rw [write_message_list_cons, msgScopeTraceList_cons,
          List.filterMap_append,
          ih m' (hszl m' (List.mem_cons_self m' ms')) hvl.1 _ hind,
          ihl (fun x hx => hszl x (List.mem_cons_of_mem _ hx)) hvl.2]
    have hcmt : lineTok (ind ++ "// message ".toList ++ nm) = none := by
      simp only [List.append_assoc]
      exact lineTok_ind_lit ind "// message " _ hs (by decide)
    have hopn : lineTok (ind ++ "namespace ".toList ++ nm ++ " \x7b".toList)
        = some (ScopeTok.enter nm) := by
      simp only [List.append_assoc]
      rw [lineTok_append_spaces _ _ hs]
      exact lineTok_enter nm
    have hcls : lineTok (ind ++ "\x7d //".toList ++ nm)
        = some (ScopeTok.leave nm) := by
      simp only [List.append_assoc]
      rw [lineTok_append_spaces _ _ hs]
      exact lineTok_leave nm
    rw [write_message, msgScopeTrace]
    simp only [GENERATE_MAPPING, if_true]
    rw [List.filterMap_append, List.filterMap_append, List.filterMap_append,
      List.filterMap_append, List.filterMap_append]
    rw [List.filterMap_cons_none hcmt, List.filterMap_cons_some hopn,
      List.filterMap_nil]
    rw [write_enum_list_trace enums _ hind henums]
    rw [hlist nested hsz hnested]
    rw [write_field_list_trace flds _ hind]
    rw [field_mapping_block_trace _ flds hind hflds]
    rw [List.filterMap_cons_some hcls, List.filterMap_cons_none rfl,
      List.filterMap_nil]
    simp

theorem write_message_unfold (m : DescriptorProto) (indent : Str) :
    write_message m indent =
      [indent ++ "// message ".toList ++ m.name,
       indent ++ "namespace ".toList ++ m.name ++ " \x7b".toList]
      ++ write_enum_list m.enum_type (indent ++ INDENT)
      ++ write_message_list m.nested_type (indent ++ INDENT)
      ++ write_field_list m.field (indent ++ INDENT)
      ++ field_mapping_block (indent ++ INDENT) m.field
      ++ [indent ++ "\x7d //".toList ++ m.name, []] := by
  obtain ⟨nm, flds, nested, enums⟩ := m
  rw [write_message]
  simp only [DescriptorProto.name, DescriptorProto.field,
    DescriptorProto.nested_type, DescriptorProto.enum_type,
    GENERATE_MAPPING, if_true]

/-- Claim C2: the rendered output of `write_message` opens exactly one
`namespace` scope per message, named exactly by the schema message name,
nested and ordered exactly as the descriptor tree (its scope trace equals
the tree's own open/close trace, at any depth), and closes every scope;
moreover the emission order inside a message is fixed: comment and scope
open, nested enums in declaration order, nested messages in declaration
order, fields in declaration order, the reflection tables, then the scope
close. -/
theorem c2_scope_structure (m : DescriptorProto) (indent : Str)
    (hv : validMsg m = true) (hs : allSpaces indent = true) :
    scopeTrace (write_message m indent) = msgScopeTrace m ∧
    write_message m indent =
      [indent ++ "// message ".toList ++ m.name,
       indent ++ "namespace ".toList ++ m.name ++ " \x7b".toList]
      ++ write_enum_list m.enum_type (indent ++ INDENT)
      ++ write_message_list m.nested_type (indent ++ INDENT)
      ++ write_field_list m.field (indent ++ INDENT)
      ++ field_mapping_block (indent ++ INDENT) m.field
      ++ [indent ++ "\x7d //".toList ++ m.name, []] :=
  ⟨scope_trace_aux (sizeOf m) m le_rfl hv indent hs,
   write_message_unfold m indent⟩

/-- Witness for C2: the two-level demo tree `demoOuter` is valid, the empty
indentation is all spaces, and the scope trace of its rendering equals the
tree trace, by the claim theorem at this input. -/
theorem c2_scope_structure_witness :
    validMsg demoOuter = true ∧ allSpaces [] = true ∧
    scopeTrace (write_message demoOuter []) = msgScopeTrace demoOuter := by
  have h1 : validMsg demoOuter = true := by decide
  have h2 : allSpaces ([] : Str) = true := rfl
  exact ⟨h1, h2, (c2_scope_structure demoOuter [] h1 h2).1⟩
/-- Claim C3: for every enum descriptor with N declared values, `write_enum`
renders a count constant equal to N, a display-name table of exactly N
entries whose i-th entry is the i-th declared value's name with the prefix
(constant form of the enum name plus underscore) stripped when present, and
a values table of exactly N entries whose i-th entry is the generated
constant name of the i-th declared value; the two tables are index-aligned
with each other and with declaration order. -/
theorem c3_enum_tables (enu : EnumDescriptorProto) (indent : Str) :
    ∃ pre : List Str,
      write_enum enu indent =
        pre
        ++ [indent ++ "static const int _ENUM_".toList
              ++ make_constant_name enu.name ++ "_COUNT = ".toList
              ++ natToStr enu.value.length ++ [';'],
            indent ++ "static const char* _ENUM_".toList
              ++ make_constant_name enu.name ++ "_NAMES[".toList
              ++ natToStr enu.value.length ++ "] = \x7b".toList]
        ++ enu.value.map (enum_name_entry enu indent)
        ++ [indent ++ "\x7d;".toList,
            indent ++ "static const int _ENUM_".toList
              ++ make_constant_name enu.name ++ "_VALUES[".toList
              ++ natToStr enu.value.length ++ "] = \x7b".toList]
        ++ enu.value.map (enum_value_entry indent)
        ++ [indent ++ "\x7d;".toList, []]
      ∧ (enu.value.map (enum_name_entry enu indent)).length
          = enu.value.length
      ∧ (enu.value.map (enum_value_entry indent)).length = enu.value.length
      ∧ ∀ i : Fin enu.value.length,
          (enu.value.map (enum_name_entry enu indent))[i.val]?
            = some (indent ++ INDENT ++ ['"']
                ++ stripLeading (enu.value.get i).name
                    (make_constant_name enu.name ++ ['_'])
                ++ "\",".toList)
          ∧ (enu.value.map (enum_value_entry indent))[i.val]?
            = some (indent ++ INDENT
                ++ make_constant_name (enu.value.get i).name ++ [',']) := by
  refine ⟨[indent ++ "// enum ".toList ++ enu.name]
      ++ enu.value.map (fun v =>
          indent ++ "const int ".toList ++ make_constant_name v.name
            ++ " = ".toList ++ intToStr v.number ++ [';']), ?_, ?_, ?_, ?_⟩
  · unfold write_enum
    simp [GENERATE_MAPPING, List.append_assoc]
  · simp
  · simp
  · intro i
    constructor
    · rw [List.getElem?_map, List.getElem?_eq_getElem i.isLt]
      simp [enum_name_entry, List.get_eq_getElem, List.append_assoc]
    · rw [List.getElem?_map, List.getElem?_eq_getElem i.isLt]
      simp [enum_value_entry, List.get_eq_getElem, List.append_assoc]

/-- Claim C4: for every message descriptor with N declared fields,
`write_message` renders a `_FIELD_COUNT` constant equal to N, a field-name
table of exactly N entries and a field-ID table of exactly N entries, the
i-th entry of each table corresponding to the i-th field in declaration
order: the name table holds the raw field name, the ID table the generated
constant name of that field. -/
theorem c4_message_tables (m : DescriptorProto) (indent : Str) :
    ∃ pre : List Str,
      write_message m indent =
        pre
        ++ [(indent ++ INDENT) ++ "static const int _FIELD_COUNT = ".toList
              ++ natToStr m.field.length ++ [';'],
            (indent ++ INDENT) ++ "static const char* _FIELD_NAMES[".toList
              ++ natToStr m.field.length ++ "] = \x7b".toList]
        ++ m.field.map (field_name_entry (indent ++ INDENT))
        ++ [(indent ++ INDENT) ++ "\x7d;".toList,
            (indent ++ INDENT) ++ "static const uint64_t _FIELD_IDS[".toList
              ++ natToStr m.field.length ++ "] = \x7b".toList]
        ++ m.field.map (field_id_entry (indent ++ INDENT))
        ++ [(indent ++ INDENT) ++ "\x7d;".toList, [],
            indent ++ "\x7d //".toList ++ m.name, []]
      ∧ (m.field.map (field_name_entry (indent ++ INDENT))).length
          = m.field.length
      ∧ (m.field.map (field_id_entry (indent ++ INDENT))).length
          = m.field.length
      ∧ ∀ i : Fin m.field.length,
          (m.field.map (field_name_entry (indent ++ INDENT)))[i.val]?
            = some ((indent ++ INDENT) ++ INDENT ++ ['"']
                ++ (m.field.get i).name ++ "\",".toList)
          ∧ (m.field.map (field_id_entry (indent ++ INDENT)))[i.val]?
            = some ((indent ++ INDENT) ++ INDENT
                ++ make_constant_name (m.field.get i).name ++ [',']) := by
  refine ⟨[indent ++ "// message ".toList ++ m.name,
       indent ++ "namespace ".toList ++ m.name ++ " \x7b".toList]
      ++ write_enum_list m.enum_type (indent ++ INDENT)
      ++ write_message_list m.nested_type (indent ++ INDENT)
      ++ write_field_list m.field (indent ++ INDENT), ?_, ?_, ?_, ?_⟩
  · rw [write_message_unfold]
    unfold field_mapping_block
    simp [List.append_assoc]
  · simp
  · simp
  · intro i
    constructor
    · rw [List.getElem?_map, List.getElem?_eq_getElem i.isLt]
      simp [field_name_entry, List.get_eq_getElem, List.append_assoc]
    · rw [List.getElem?_map, List.getElem?_eq_getElem i.isLt]
      simp [field_id_entry, List.get_eq_getElem, List.append_assoc]
theorem digitChar_hex : ∀ k : Fin 16,
    isHexDigitChar (Nat.digitChar k.val) = true := by decide

theorem toDigitsCore_hex (f : Nat) :
    ∀ (n : Nat) (acc : Str), (∀ c ∈ acc, isHexDigitChar c = true) →
      ∀ c ∈ Nat.toDigitsCore 16 f n acc, isHexDigitChar c = true := by
  induction f with
  | zero => intro n acc hacc; exact hacc
  | succ f ih =>
    intro n acc hacc c hc
    unfold Nat.toDigitsCore at hc
    have hd : isHexDigitChar (Nat.digitChar (n % 16)) = true :=
      digitChar_hex ⟨n % 16, Nat.mod_lt _ (by decide)⟩
    by_cases hz : n / 16 = 0
    · rw [if_pos hz] at hc
      rcases List.mem_cons.mp hc with rfl | hmem
      · exact hd
      · exact hacc c hmem
    · rw [if_neg hz] at hc
      refine ih (n / 16) (Nat.digitChar (n % 16) :: acc) ?_ c hc
      intro d hdm
      rcases List.mem_cons.mp hdm with rfl | hmem
      · exact hd
      · exact hacc d hmem

theorem hexChars_hex (n : Nat) :
    ∀ c ∈ hexChars n, isHexDigitChar c = true := by
  unfold hexChars Nat.toDigits
  exact toDigitsCore_hex (n + 1) n [] (by intro c hc; cases hc)

theorem hexChars_length_le (n : Nat) (h : n < 2 ^ 64) :
    (hexChars n).length ≤ 16 := by
  unfold hexChars Nat.toDigits
  refine Nat.toDigitsCore_length 16 (by norm_num) (n + 1) n 16 ?_ (by norm_num)
  calc n < 2 ^ 64 := h
    _ = 16 ^ 16 := by norm_num

theorem hex16_length (n : Nat) (h : n < 2 ^ 64) : (hex16 n).length = 16 := by
  unfold hex16 padTo
  rw [List.length_append, List.length_replicate]
  have := hexChars_length_le n h
  omega

theorem hex16_all_hex (n : Nat) : (hex16 n).all isHexDigitChar = true := by
  unfold hex16 padTo
  rw [List.all_append, Bool.and_eq_true]
  constructor
  · rw [List.all_eq_true]
    intro c hc
    rw [List.eq_of_mem_replicate hc]
    decide
  · rw [List.all_eq_true]
    exact hexChars_hex n

theorem get_field_id_lt (field : FieldDescriptorProto) :
    get_field_id field < 2 ^ 64 := by
  unfold get_field_id
  have h1 : field.number % 2 ^ 32 < 2 ^ 32 :=
    Nat.mod_lt _ (by norm_num)
  have h2 := field_type_code_bounds field.type
  have h3 := field_count_code_bounds field
  have e1 : (2 : Nat) ^ 32 = 4294967296 := by norm_num
  have e2 : (2 : Nat) ^ 40 = 1099511627776 := by norm_num
  have e3 : (2 : Nat) ^ 64 = 18446744073709551616 := by norm_num
  rw [e1, e2, e3]
  rw [e1] at h1
  omega

/-- Claim C5 (amended): the rendered field-ID constant is `0x`, exactly 16
zero-padded lowercase hexadecimal digits, and the integer-literal suffix
`LL`, which marks the literal as 64-bit (long long) but carries no unsigned
marker: the unsignedness of the constant comes from its declared `uint64_t`
type, not from the suffix. -/
theorem c5_hex16_LL_format (field : FieldDescriptorProto) (indent : Str) :
    field_const_line field indent
      = indent ++ "const uint64_t ".toList ++ make_constant_name field.name
        ++ " = 0x".toList ++ hex16 (get_field_id field) ++ "LL;".toList
    ∧ (hex16 (get_field_id field)).length = 16
    ∧ (hex16 (get_field_id field)).all isHexDigitChar = true
    ∧ marks64 "LL".toList = true
    ∧ marksUnsigned "LL".toList = false :=
  ⟨rfl, hex16_length _ (get_field_id_lt field), hex16_all_hex _,
    by decide, by decide⟩

/-- Counterexample for C5: at the concrete field `fldSides` the constant
line admits no decomposition into the head, sixteen hex digits and an
integer-literal suffix that both marks 64 bits and marks unsignedness: the
only such decomposition carries the suffix `LL`, which has no `u`/`U`. -/
theorem c5_no_unsigned_suffix :
    ¬ ∃ ds suf : Str,
      field_const_line fldSides []
        = "const uint64_t SIDES = 0x".toList ++ (ds ++ (suf ++ [';']))
      ∧ ds.length = 16 ∧ ds.all isHexDigitChar = true
      ∧ marks64 suf = true ∧ marksUnsigned suf = true := by
  rintro ⟨ds, suf, heq, hlen, _, _, hU⟩
  have hline : field_const_line fldSides []
      = "const uint64_t SIDES = 0x".toList
        ++ "0000010500000001LL;".toList := by decide
  rw [hline] at heq
  have htail : ("0000010500000001LL;".toList : Str) = ds ++ (suf ++ [';']) :=
    List.append_cancel_left heq
  have hds : suf ++ [';'] = "LL;".toList := by
    have h1 : (ds ++ (suf ++ [';'])).drop 16 = "LL;".toList := by
      rw [← htail]; decide
    rwa [List.drop_left' hlen] at h1
  have hsuf : suf = "LL".toList := by
    have h2 : suf ++ [';'] = "LL".toList ++ [';'] := hds
    exact List.append_cancel_right h2
  rw [hsuf] at hU
  exact absurd hU (by decide)

/-- Claim C9: the packed annotation in the rendered comment line is driven
solely by the packed option, regardless of the field's label: for every
field descriptor there is a base string, independent of the packed bit, such
that the comment line of the field with its packed option set to b is that
base followed by " [packed=true]" exactly when b is true, then the
semicolon; in particular non-repeated packed fields get the annotation and
unpacked fields never do. -/
theorem c9_packed_annotation (field : FieldDescriptorProto) (indent : Str) :
    ∃ base : Str, ∀ b : Bool,
      (write_field (setPacked field b) indent).head?
        = some (base ++ (if b then " [packed=true]".toList else [])
            ++ [';']) := by
  obtain ⟨nm, num, lab, ty, tyn, opts⟩ := field
  refine ⟨indent ++ "// ".toList
      ++ (if lab = Label.LABEL_OPTIONAL then "optional ".toList else [])
      ++ (if lab = Label.LABEL_REPEATED then "repeated ".toList else [])
      ++ get_proto_type ⟨nm, num, lab, ty, tyn, opts⟩ ++ [' '] ++ nm
      ++ " = ".toList ++ natToStr num, ?_⟩
  intro b
  unfold write_field field_comment_line setPacked get_proto_type
  simp
theorem build_features (request : CodeGeneratorRequest) :
    ∀ (fds : List FileDescriptorProto) (acc : CodeGeneratorResponse),
      (build_files request fds acc).supported_features
        = if containsSub PROTO3_OPTIONAL_TOKEN request.parameter
            && fds.any (fun fd => should_generate_for_file request fd.name)
          then 1 else acc.supported_features := by
  intro fds
  induction fds with
  | nil => intro acc; simp [build_files]
  | cons fd fds ih =>
    intro acc
    rw [build_files, ih]
    by_cases hg : should_generate_for_file request fd.name
    · by_cases ht : containsSub PROTO3_OPTIONAL_TOKEN request.parameter
      · simp [hg, ht, write_header_file]
      · simp [hg, ht, write_header_file]
    · simp [hg]

theorem build_skip_all (request : CodeGeneratorRequest) :
    ∀ (fds : List FileDescriptorProto) (acc : CodeGeneratorResponse),
      fds.all (fun fd => !should_generate_for_file request fd.name) = true →
      build_files request fds acc = acc := by
  intro fds
  induction fds with
  | nil => intro acc _; rfl
  | cons fd fds ih =>
    intro acc h
    simp only [List.all_cons, Bool.and_eq_true, Bool.not_eq_true'] at h
    rw [build_files, if_neg (by rw [h.1]; exact Bool.false_ne_true)]
    refine ih acc ?_
    rw [List.all_eq_true]
    intro x hx
    exact (List.all_eq_true.mp h.2) x hx

/-- Claim C6: the all-or-nothing gate of `main`.  For every request and
every state of the error log at the end of the loop: when the log is
non-empty, nothing is written to the output channel (no matter how many
documents were built in memory), the accumulated messages are printed and
the exit status is 1; when the log is empty, the full built response is
written, nothing is printed and the exit status is 0. -/
theorem c6_error_gate (request : CodeGeneratorRequest) (errors : List Str) :
    (errors ≠ [] →
      (main_run request errors).written = none
      ∧ (main_run request errors).exitCode = 1
      ∧ (main_run request errors).printed = errors)
    ∧ (errors = [] →
      (main_run request errors).written
        = some (build_files request request.proto_file ⟨0, []⟩)
      ∧ (main_run request errors).exitCode = 0
      ∧ (main_run request errors).printed = []) := by
  constructor
  · intro hne
    have h : errors.isEmpty = false := by
      cases errors with
      | nil => exact absurd rfl hne
      | cons a l => rfl
    unfold main_run
    rw [if_neg (by rw [h]; exact Bool.false_ne_true)]
    exact ⟨rfl, rfl, rfl⟩
  · rintro rfl
    exact ⟨rfl, rfl, rfl⟩

/-- Witness for C6: with the demo request (which builds one document), a
non-empty error log suppresses the output, prints the log and exits 1,
while the empty log writes the built response and exits 0. -/
theorem c6_error_gate_witness :
    ((main_run demoRequest ["boom".toList]).written = none
      ∧ (main_run demoRequest ["boom".toList]).exitCode = 1
      ∧ (main_run demoRequest ["boom".toList]).printed = ["boom".toList])
    ∧ ((main_run demoRequest []).written
        = some (build_files demoRequest demoRequest.proto_file ⟨0, []⟩)
      ∧ (main_run demoRequest []).exitCode = 0
      ∧ (main_run demoRequest []).printed = [])
    ∧ (build_files demoRequest demoRequest.proto_file ⟨0, []⟩).file.length
        = 1 :=
  ⟨(c6_error_gate demoRequest ["boom".toList]).1 (by decide),
   (c6_error_gate demoRequest []).2 rfl,
   by decide⟩

/-- Claim C7 (amended): the proto3-optional capability flag is set exactly
when the request parameter contains the feature token AND at least one
eligible file is generated (the flag is set inside the per-file emitter);
with no token it is never set, and with the token but zero eligible files
it also stays unset. -/
theorem c7_feature_flag (request : CodeGeneratorRequest) :
    (containsSub PROTO3_OPTIONAL_TOKEN request.parameter = false →
      (build_files request request.proto_file ⟨0, []⟩).supported_features = 0)
    ∧ ((containsSub PROTO3_OPTIONAL_TOKEN request.parameter = true
        ∧ request.proto_file.any
            (fun fd => should_generate_for_file request fd.name) = true) →
      (build_files request request.proto_file ⟨0, []⟩).supported_features
        = 1) := by
  constructor
  · intro h
    rw [build_features, if_neg]
    rw [h]
    exact Bool.false_ne_true
  · rintro ⟨h1, h2⟩
    rw [build_features, if_pos]
    rw [h1, h2]
    rfl

/-- Witness for C7 (amended): with the token in the parameter and one
eligible file the flag is set; with an empty parameter it is unset. -/
theorem c7_feature_flag_witness :
    (build_files tokenRequest tokenRequest.proto_file ⟨0, []⟩).supported_features = 1
    ∧ (build_files demoRequest demoRequest.proto_file ⟨0, []⟩).supported_features = 0 :=
  ⟨(c7_feature_flag tokenRequest).2 ⟨by decide, by decide⟩,
   (c7_feature_flag demoRequest).1 (by decide)⟩

/-- Counterexample for C7: the run whose parameter is exactly the
proto3-optional token but which has zero files never reaches the per-file
emitter, so the capability flag stays unset although the parameter contains
the token — refuting the claim that every run whose parameter contains the
token sets the flag. -/
theorem c7_token_without_files :
    containsSub PROTO3_OPTIONAL_TOKEN tokenOnlyRequest.parameter = true
    ∧ (build_files tokenOnlyRequest tokenOnlyRequest.proto_file
        ⟨0, []⟩).supported_features = 0
    ∧ (main_run tokenOnlyRequest []).written
        = some ⟨0, []⟩ := by
  refine ⟨by decide, rfl, rfl⟩

/-- Claim C8: when the selection predicate rejects every input file, the
run succeeds: exit status 0, no error printed, and the response written
holds zero output documents (and no capability flag). -/
theorem c8_zero_eligible (request : CodeGeneratorRequest)
    (h : request.proto_file.all
        (fun fd => !should_generate_for_file request fd.name) = true) :
    (main_run request []).exitCode = 0
    ∧ (main_run request []).printed = []
    ∧ (main_run request []).written = some ⟨0, []⟩ := by
  unfold main_run
  rw [build_skip_all request request.proto_file ⟨0, []⟩ h]
  exact ⟨rfl, rfl, rfl⟩

/-- Witness for C8: the request selecting only "x.proto" rejects the lone
file "a.proto"; the run exits 0 with an empty response. -/
theorem c8_zero_eligible_witness :
    skipAllRequest.proto_file.all
        (fun fd => !should_generate_for_file skipAllRequest fd.name) = true
    ∧ (main_run skipAllRequest []).exitCode = 0
    ∧ (main_run skipAllRequest []).printed = []
    ∧ (main_run skipAllRequest []).written = some ⟨0, []⟩ := by
  refine ⟨by decide, c8_zero_eligible skipAllRequest (by decide)⟩
theorem padTo_zero (fl : Char) (t : Str) : padTo 0 fl t = t := by
  unfold padTo
  simp

/-- Claim C10 (amended): rendering the field constant restores the numeric
base through the saved format flags and leaves the width at zero (the
formatted insertion consumes it), so for a stream that was in the default
state (width 0, decimal base) every later integer insertion still renders
as plain decimal with no padding, and the stream text grows by exactly the
lines of `write_field`; the fill character, however, is NOT restored —
`ios::flags` does not include it — and stays '0' afterwards. -/
theorem c10_format_state (s : OStream) (field : FieldDescriptorProto)
    (indent : Str) (hw : s.width = 0) (hb : s.base = NumBase.dec) :
    (write_field_stream s field indent).base = NumBase.dec
    ∧ (write_field_stream s field indent).width = 0
    ∧ (write_field_stream s field indent).fill = '0'
    ∧ (write_field_stream s field indent).out
        = s.out ++ lineJoin (write_field field indent)
    ∧ (∀ n : Nat,
        ((write_field_stream s field indent).putNat n).out
          = (write_field_stream s field indent).out ++ natToStr n) := by
  obtain ⟨out, base, width, fill⟩ := s
  simp only at hw hb
  subst hw hb
  refine ⟨?_, ?_, ?_, ?_, ?_⟩
  · rfl
  · rfl
  · rfl
  · simp only [write_field_stream, OStream.putStr, OStream.putNat,
      OStream.putChar, OStream.endl, OStream.setfill, OStream.setw,
      OStream.setHex, OStream.setFlags, OStream.flags, padTo_zero]
    unfold lineJoin write_field field_comment_line field_const_line
    simp [hex16, renderNat, List.append_assoc]
  · intro n
    simp only [write_field_stream, OStream.putStr, OStream.putNat,
      OStream.putChar, OStream.endl, OStream.setfill, OStream.setw,
      OStream.setHex, OStream.setFlags, OStream.flags, padTo_zero]
    simp [renderNat]

/-- Witness for C10 (amended): the fresh default stream satisfies the
hypotheses (width 0, decimal base), and after rendering `fldSides` the base
is decimal, the width zero, the fill '0'. -/
theorem c10_format_state_witness :
    freshStream.width = 0 ∧ freshStream.base = NumBase.dec
    ∧ (write_field_stream freshStream fldSides []).base = NumBase.dec
    ∧ (write_field_stream freshStream fldSides []).width = 0
    ∧ (write_field_stream freshStream fldSides []).fill = '0' := by
  refine ⟨rfl, rfl, ?_, ?_, ?_⟩
  · exact (c10_format_state freshStream fldSides [] rfl rfl).1
  · exact (c10_format_state freshStream fldSides [] rfl rfl).2.1
  · exact (c10_format_state freshStream fldSides [] rfl rfl).2.2.1

/-- Counterexample for C10: the fill character is not part of
`ios::fmtflags`, so `text.flags(fmt)` does not restore it: starting from
the default stream (fill ' '), after `write_field` the fill is '0' — the
formatting state is not fully restored as claimed. -/
theorem c10_fill_not_restored :
    freshStream.fill = ' '
    ∧ (write_field_stream freshStream fldSides []).fill = '0'
    ∧ (write_field_stream freshStream fldSides []).fill ≠ freshStream.fill := by
  refine ⟨rfl, rfl, by decide⟩
